import Mathlib

/-!
Verification of the deterministic random-generation core of sham3js:
the Mulberry32-based seeded engine (src/unnamed/part_002), the Keccak-256
permutation core (src/unnamed/part_003), the EIP-55 checksum casing
(src/src/modules/address.ts) and the GBM candle sampler
(src/unnamed/part_001).

Modelling conventions:
* JS `BigInt` values are embedded as `ℤ` with arbitrary-precision
  two's-complement bitwise semantics (`jsNot`, `jsAnd`, `jsOr`, `jsXor`,
  `jsShl`, `jsShr`).  These agree with `Int.not`/`Int.land`/… but are
  written so that every case reduces through kernel-computable `ℕ`
  operations.
* JS 32-bit integer state (the PRNG register, produced by `|0`, `>>>`,
  `Math.imul`) is embedded by its unsigned 32-bit representative, a `ℕ`
  below `2^32`; every add/multiply is reduced `% 2^32`, which agrees with
  JS ToInt32/ToUint32 semantics on the signed representation.
* JS floating-point numbers are idealised as exact rationals `ℚ`; the
  transcendental kernels (`Math.exp`, `Math.log`, `Math.cos`, `Math.sqrt`,
  `Math.pow`) that cannot be represented exactly are abstracted as
  explicit function parameters or as an `Option`-valued partial model
  (`none` = a finite value the model does not track); the ECMAScript
  special cases (`pow(x, 0) = 1`, `pow(±1, ±∞) = NaN`, division by zero
  giving `±∞`) are modelled exactly.
* Mutation of a caller-supplied JS array is embedded by returning the
  array's final contents alongside the ordinary return value.
-/

/-- JS BigInt bitwise NOT: `~a = -(a+1)` on arbitrary-precision
two's-complement integers. -/
def jsNot (a : ℤ) : ℤ := -(a + 1)

/-- JS BigInt bitwise AND on arbitrary-precision two's-complement integers
(for `b < 0` with `m = -b-1 = ~b ≥ 0`, `a AND b = a AND NOT m = a - (a AND m)`). -/
def jsAnd (a b : ℤ) : ℤ :=
  if 0 ≤ a then
    if 0 ≤ b then ((a.toNat &&& b.toNat : ℕ) : ℤ)
    else ((a.toNat - (a.toNat &&& (-b - 1).toNat) : ℕ) : ℤ)
  else
    if 0 ≤ b then ((b.toNat - (b.toNat &&& (-a - 1).toNat) : ℕ) : ℤ)
    else -((((-a - 1).toNat ||| (-b - 1).toNat : ℕ) : ℤ) + 1)

/-- JS BigInt bitwise OR on arbitrary-precision two's-complement integers. -/
def jsOr (a b : ℤ) : ℤ :=
  if 0 ≤ a then
    if 0 ≤ b then ((a.toNat ||| b.toNat : ℕ) : ℤ)
    else -((((-b - 1).toNat - ((-b - 1).toNat &&& a.toNat) : ℕ) : ℤ) + 1)
  else
    if 0 ≤ b then -((((-a - 1).toNat - ((-a - 1).toNat &&& b.toNat) : ℕ) : ℤ) + 1)
    else -((((-a - 1).toNat &&& (-b - 1).toNat : ℕ) : ℤ) + 1)

/-- JS BigInt bitwise XOR on arbitrary-precision two's-complement integers. -/
def jsXor (a b : ℤ) : ℤ :=
  if 0 ≤ a then
    if 0 ≤ b then ((a.toNat ^^^ b.toNat : ℕ) : ℤ)
    else -(((a.toNat ^^^ (-b - 1).toNat : ℕ) : ℤ) + 1)
  else
    if 0 ≤ b then -((((-a - 1).toNat ^^^ b.toNat : ℕ) : ℤ) + 1)
    else (((-a - 1).toNat ^^^ (-b - 1).toNat : ℕ) : ℤ)

/-- JS BigInt left shift by a nonnegative count: exact multiplication. -/
def jsShl (a : ℤ) (n : ℕ) : ℤ := a * 2 ^ n

/-- JS BigInt right shift by a nonnegative count: floor division by `2^n`
(`Int.shiftRight` has exactly these semantics). -/
def jsShr (a : ℤ) (n : ℕ) : ℤ := Int.shiftRight a n

/-- Keccak round constants RC (src/unnamed/part_003:6-15). -/
def RC : List ℤ :=
  [0x0000000000000001, 0x0000000000008082, 0x800000000000808a,
   0x8000000080008000, 0x000000000000808b, 0x0000000080000001,
   0x8000000080008081, 0x8000000000008009, 0x000000000000008a,
   0x0000000000000088, 0x0000000080008009, 0x000000008000000a,
   0x000000008000808b, 0x800000000000008b, 0x8000000000008089,
   0x8000000000008003, 0x8000000000008002, 0x8000000000000080,
   0x000000000000800a, 0x800000008000000a, 0x8000000080008081,
   0x8000000000008080, 0x0000000080000001, 0x8000000080008008]

/-- Keccak rotation offsets ROTC (src/unnamed/part_003:17-20). -/
def ROTC : List ℕ :=
  [1, 3, 6, 10, 15, 21, 28, 36, 45, 55, 2, 14,
   27, 41, 56, 8, 25, 43, 62, 18, 39, 61, 20, 44]

/-- Keccak pi lane permutation PI (src/unnamed/part_003:22-25). -/
def PI : List ℕ :=
  [10, 7, 11, 17, 18, 3, 5, 16, 8, 21, 24, 4,
   15, 23, 19, 13, 12, 2, 20, 14, 22, 9, 6, 1]

/-- Embedding of rotl64 (src/unnamed/part_003:61-63):
`((x << n) | (x >> (64n - n))) & 0xffffffffffffffffn`. -/
def rotl64 (x : ℤ) (n : ℕ) : ℤ :=
  jsAnd (jsOr (jsShl x n) (jsShr x (64 - n))) 0xffffffffffffffff

/-- Theta step of keccakF (src/unnamed/part_003:29-39).  The source
computes the column parities `C` before any write and then xors
`D = C[(x+4)%5] ^ rotl64(C[(x+1)%5], 1)` into every lane of column `x`;
the map below performs exactly those writes. -/
def thetaC (s : List ℤ) : List ℤ :=
  (List.range 5).map fun x =>
    jsXor (jsXor (jsXor (jsXor (s.getD x 0) (s.getD (x + 5) 0))
      (s.getD (x + 10) 0)) (s.getD (x + 15) 0)) (s.getD (x + 20) 0)

/-- Lane writes of the Theta step: xor `D = C[(x+4)%5] ^ rotl64(C[(x+1)%5], 1)`
into every lane of column `x`. -/
def theta (s : List ℤ) : List ℤ :=
  (List.range 25).map fun i =>
    let x := i % 5
    let D := jsXor ((thetaC s).getD ((x + 4) % 5) 0) (rotl64 ((thetaC s).getD ((x + 1) % 5) 0) 1)
    jsXor (s.getD i 0) D

/-- Fused Rho+Pi step of keccakF (src/unnamed/part_003:40-47): a fold over
`i = 0..23` carrying the pair (state, last), starting from `last = state[1]`. -/
def rhoPi (s : List ℤ) : List ℤ :=
  ((List.range 24).foldl
    (fun acc i =>
      let j := PI.getD i 0
      let temp := acc.1.getD j 0
      (acc.1.set j (rotl64 acc.2 (ROTC.getD i 0)), temp))
    (s, s.getD 1 0)).1

/-- Chi step of keccakF (src/unnamed/part_003:48-55).  The source snapshots
each row of 5 lanes before writing it, so every read below is from the
pre-step state. -/
def chi (s : List ℤ) : List ℤ :=
  (List.range 25).map fun i =>
    let y := 5 * (i / 5)
    let x := i % 5
    jsXor (s.getD (y + x) 0)
      (jsAnd (jsNot (s.getD (y + (x + 1) % 5) 0)) (s.getD (y + (x + 2) % 5) 0))

/-- Iota step of keccakF (src/unnamed/part_003:56-57). -/
def iotaStep (round : ℕ) (s : List ℤ) : List ℤ :=
  s.set 0 (jsXor (s.getD 0 0) (RC.getD round 0))

/-- Embedding of keccakF (src/unnamed/part_003:27-59): 24 rounds of
Theta, Rho+Pi, Chi, Iota. -/
def keccakF (s : List ℤ) : List ℤ :=
  (List.range 24).foldl (fun st round => iotaStep round (chi (rhoPi (theta st)))) s

/-- Keccak padding (src/unnamed/part_003:69-73): append `0x01`, zero-pad to
a multiple of the 136-byte rate, OR `0x80` into the final byte. -/
def keccakPad (input : List ℕ) : List ℕ :=
  let total := ((input.length + 1 + 135) / 136) * 136
  let base := input ++ 1 :: List.replicate (total - input.length - 1) 0
  base.set (total - 1) (base.getD (total - 1) 0 ||| 0x80)

/-- One absorbed block (src/unnamed/part_003:76-83): XOR the 17
little-endian 64-bit lanes of a 136-byte block into state lanes 0-16. -/
def absorbBlock (st : List ℤ) (block : List ℕ) : List ℤ :=
  (List.range 17).foldl
    (fun st i =>
      let lane := (List.range 8).foldl
        (fun lane b => jsOr lane (jsShl ((block.getD (i * 8 + b) 0 : ℕ) : ℤ) (b * 8))) 0
      st.set i (jsXor (st.getD i 0) lane))
    st

/-- The absorb loop (src/unnamed/part_003:76-85), one 136-byte block per
iteration; the block count `padded.length / 136` is passed as fuel. -/
def absorbGo : List ℤ → List ℕ → ℕ → List ℤ
  | st, _, 0 => st
  | st, padded, Nat.succ k =>
      absorbGo (keccakF (absorbBlock st (padded.take 136))) (padded.drop 136) k

/-- Embedding of keccak256 (src/unnamed/part_003:65-96): pad, absorb all
blocks, squeeze 32 bytes from lanes 0-3 (little-endian).  The final
`Number(...)` conversion of each nonnegative masked byte is `Int.toNat`. -/
def keccak256 (input : List ℕ) : List ℕ :=
  let padded := keccakPad input
  let st := absorbGo (List.replicate 25 (0 : ℤ)) padded (padded.length / 136)
  (List.range 32).map fun idx =>
    (jsAnd (jsShr (st.getD (idx / 8) 0) ((idx % 8) * 8)) 0xff).toNat

/-- Lowercase hex digit, as produced by JS `Number.prototype.toString(16)`. -/
def hexChar (n : ℕ) : Char := if n < 10 then Char.ofNat (48 + n) else Char.ofNat (87 + n)

/-- Hex encoding of one byte: `b.toString(16).padStart(2, '0')`. -/
def hexByte (b : ℕ) : List Char := [hexChar (b / 16), hexChar (b % 16)]

/-- Lowercase hex encoding of a byte sequence, as in
`Array.from(hash).map((b) => b.toString(16).padStart(2, '0')).join('')`. -/
def bytesToHex (bs : List ℕ) : String := ⟨bs.foldr (fun b acc => hexByte b ++ acc) []⟩

/-- UTF-8 encoding of a string (`new TextEncoder().encode(...)`); all inputs
used by the repository are ASCII, where UTF-8 is the identity on code points. -/
def stringToBytes (s : String) : List ℕ := s.data.map Char.toNat

/-- Embedding of keccak256Hex (src/unnamed/part_003:98-104). -/
def keccak256Hex (s : String) : String := bytesToHex (keccak256 (stringToBytes s))

/-- Partial model of a JS floating-point value: a finite value idealised as
an exact rational, a signed infinity (`true` = positive), or NaN. -/
inductive JSNum where
  | num : ℚ → JSNum
  | inf : Bool → JSNum
  | nan : JSNum
deriving DecidableEq

/-- JS addition on modelled float values. -/
def JSNum.add : JSNum → JSNum → JSNum
  | num a, num b => num (a + b)
  | nan, _ => nan
  | _, nan => nan
  | inf a, num _ => inf a
  | num _, inf b => inf b
  | inf a, inf b => if a = b then inf a else nan

/-- JS subtraction on modelled float values. -/
def JSNum.sub : JSNum → JSNum → JSNum
  | num a, num b => num (a - b)
  | nan, _ => nan
  | _, nan => nan
  | inf a, num _ => inf a
  | num _, inf b => inf (!b)
  | inf a, inf b => if a = b then nan else inf a

/-- JS multiplication on modelled float values. -/
def JSNum.mul : JSNum → JSNum → JSNum
  | num a, num b => num (a * b)
  | nan, _ => nan
  | _, nan => nan
  | inf a, num b => if b = 0 then nan else inf (a == decide (0 < b))
  | num a, inf b => if a = 0 then nan else inf (b == decide (0 < a))
  | inf a, inf b => inf (a == b)

/-- JS division of two finite numbers: division by zero gives a signed
infinity (NaN for `0/0`), our `ℚ` zero standing for JS `+0`. -/
def jsDivQ (a b : ℚ) : JSNum :=
  if b = 0 then (if a = 0 then JSNum.nan else JSNum.inf (decide (0 < a)))
  else JSNum.num (a / b)

/-- Partial model of `Math.pow`.  `none` stands for a finite result the
model does not track (a real power, irrational in general).  The
ECMAScript special cases the repository's control flow depends on are
exact: exponent `±0` gives `1` for every base; NaN propagates; base `1`
gives `1` for every finite nonzero exponent and NaN for an infinite
exponent (as does base `-1`). -/
def jsPowP : JSNum → JSNum → Option JSNum
  | _, JSNum.nan => some JSNum.nan
  | x, JSNum.num e =>
      if e = 0 then some (JSNum.num 1)
      else match x with
        | JSNum.nan => some JSNum.nan
        | JSNum.num b => if b = 1 then some (JSNum.num 1) else none
        | JSNum.inf _ => none
  | x, JSNum.inf _ =>
      match x with
      | JSNum.nan => some JSNum.nan
      | JSNum.num b => if b = 1 ∨ b = -1 then some JSNum.nan else none
      | JSNum.inf _ => none

namespace PRNG

/-- Register update of PRNG.next (src/unnamed/part_002:21-22):
`this.state |= 0; this.state = (this.state + 0x6d2b79f5) | 0`.  The
register is embedded by its unsigned 32-bit representative. -/
def nextState (s : ℕ) : ℕ := (s % 2 ^ 32 + 0x6d2b79f5) % 2 ^ 32

/-- Output mixing of PRNG.next (src/unnamed/part_002:23-25), Mulberry32:
every multiplication (`Math.imul`) and addition is truncated to 32 bits,
`>>>` acts on the unsigned representative. -/
def mix (s1 : ℕ) : ℕ :=
  let t1 := ((s1 ^^^ (s1 >>> 15)) * (1 ||| s1)) % 2 ^ 32
  let t2 := ((t1 + ((t1 ^^^ (t1 >>> 7)) * (61 ||| t1)) % 2 ^ 32) % 2 ^ 32) ^^^ t1
  t2 ^^^ (t2 >>> 14)

/-- Embedding of PRNG.next (src/unnamed/part_002:20-26): advance the
register, return the mixed unsigned 32-bit word divided by `2^32`. -/
def next (s : ℕ) : ℕ × ℚ :=
  let s1 := nextState s
  (s1, (mix s1 : ℚ) / 4294967296)

/-- Embedding of PRNG.int (src/unnamed/part_002:29-31):
`Math.floor(this.next() * (max - min + 1)) + min`. -/
def int (s : ℕ) (min max : ℤ) : ℕ × ℤ :=
  let r := next s
  (r.1, ⌊r.2 * ((max : ℚ) - (min : ℚ) + 1)⌋ + min)

/-- Embedding of PRNG.float (src/unnamed/part_002:34-36):
`this.next() * (max - min) + min`. -/
def float (s : ℕ) (min max : ℚ) : ℕ × ℚ :=
  let r := next s
  (r.1, r.2 * (max - min) + min)

/-- Embedding of PRNG.pick (src/unnamed/part_002:48-50):
`arr[this.int(0, arr.length - 1)]`.  A JS out-of-bounds read yields
`undefined`, embedded as `none`. -/
def pick {α : Type} (s : ℕ) (arr : List α) : ℕ × Option α :=
  let r := int s 0 ((arr.length : ℤ) - 1)
  (r.1, arr.get? r.2.toNat)

/-- Loop of PRNG.pickMultiple (src/unnamed/part_002:57-61): repeat `n`
times: draw `idx = int(0, copy.length - 1)`, push `copy[idx]`, remove it
from `copy`. -/
def pickMultipleGo {α : Type} [Inhabited α] : ℕ → List α → ℕ → List α × ℕ
  | s, _, 0 => ([], s)
  | s, copy, Nat.succ m =>
      let r := int s 0 ((copy.length : ℤ) - 1)
      let idx := r.2.toNat
      let rest := pickMultipleGo r.1 (copy.eraseIdx idx) m
      (copy.getD idx default :: rest.1, rest.2)

/-- Embedding of PRNG.pickMultiple (src/unnamed/part_002:53-63).  The
source clones the caller's array (`const copy = [...arr]`) and splices the
clone only; the first component of the result is the caller's array after
the call. -/
def pickMultiple {α : Type} [Inhabited α] (s : ℕ) (arr : List α) (count : ℕ) :
    List α × List α × ℕ :=
  let r := pickMultipleGo s arr (Nat.min count arr.length)
  (arr, r.1, r.2)

/-- The swap `[arr[i], arr[j]] = [arr[j], arr[i]]` of PRNG.shuffle. -/
def swap {α : Type} [Inhabited α] (arr : List α) (i j : ℕ) : List α :=
  (arr.set i (arr.getD j default)).set j (arr.getD i default)

/-- Loop of PRNG.shuffle (src/unnamed/part_002:67-70): for
`i = arr.length - 1` down to `1`, draw `j = int(0, i)` and swap
`arr[i]` with `arr[j]`.  The recursion is over the loop index `i`
(written with `Nat.rec` so that one loop iteration unfolds by iota
reduction). -/
def shuffleGo {α : Type} [Inhabited α] (s : ℕ) (arr : List α) (i : ℕ) : List α × ℕ :=
  @Nat.rec (fun _ => ℕ → List α → List α × ℕ)
    (fun s0 arr0 => (arr0, s0))
    (fun m ih s0 arr0 =>
      let r := int s0 0 ((m + 1 : ℕ) : ℤ)
      ih r.1 (swap arr0 (m + 1) r.2.toNat))
    i s arr

/-- Embedding of PRNG.shuffle (src/unnamed/part_002:66-72), in-place
Fisher-Yates; the returned list is the caller's array after the call,
which the source also returns. -/
def shuffle {α : Type} [Inhabited α] (s : ℕ) (arr : List α) : List α × ℕ :=
  shuffleGo s arr (arr.length - 1)

/-- Embedding of PRNG.gaussian (src/unnamed/part_002:100-105).  It draws
`u1`, `u2` by two `next()` calls; the transcendental Box-Muller kernel
`Math.sqrt(-2 * Math.log(u1)) * Math.cos(2 * Math.PI * u2)` is abstracted
as the parameter `bm`. -/
def gaussian (bm : ℚ → ℚ → ℚ) (s : ℕ) (mean stddev : ℚ) : ℕ × ℚ :=
  let r1 := next s
  let r2 := next r1.1
  (r2.1, bm r1.2 r2.2 * stddev + mean)

/-- Embedding of PRNG.powerLaw (src/unnamed/part_002:108-113).  The source
performs no precondition check: it draws `u = next()` first and returns
`Math.pow(minA + u * (maxA - minA), 1 / (1 - alpha))` with
`minA = Math.pow(min, 1 - alpha)` and `maxA = Math.pow(max, 1 - alpha)`.
Finite values `Math.pow` produces that the float model does not track
propagate as `none`. -/
def powerLaw (s : ℕ) (min max alpha : ℚ) : ℕ × Option JSNum :=
  let r := next s
  let minA := jsPowP (JSNum.num min) (JSNum.num (1 - alpha))
  let maxA := jsPowP (JSNum.num max) (JSNum.num (1 - alpha))
  (r.1, minA.bind fun mA => maxA.bind fun xA =>
    jsPowP (JSNum.add mA (JSNum.mul (JSNum.num r.2) (JSNum.sub xA mA)))
      (jsDivQ 1 (1 - alpha)))

end PRNG

/-- Hex value of one lowercase hex digit character (`parseInt(c, 16)`). -/
def hexVal (c : Char) : ℕ := if c.toNat ≤ 57 then c.toNat - 48 else c.toNat - 87

/-- Uppercasing of one lowercase ASCII hex character
(`String.prototype.toUpperCase`). -/
def upperHexChar (c : Char) : Char :=
  if 97 ≤ c.toNat then Char.ofNat (c.toNat - 32) else c

/-- Embedding of AddressModule.toChecksumAddress
(src/src/modules/address.ts:84-101): lowercase-hex the 20 bytes, hash the
UTF-8 bytes of that hex string, and uppercase character `i` exactly when
digit `i` of the digest's hex expansion is at least 8. -/
def toChecksumAddress (bytes : List ℕ) : String :=
  let hex := (bytesToHex bytes).data
  let hashInput := hex.map Char.toNat
  let hash := keccak256 hashInput
  let hashHex := (bytesToHex hash).data
  ⟨'0' :: 'x' :: ((List.range 40).map fun i =>
    if 8 ≤ hexVal (hashHex.getD i '0') then upperHexChar (hex.getD i '0')
    else hex.getD i '0')⟩

/-- An OHLCV candle (src/unnamed/part_001:4-11); `open` is a Lean keyword,
so the field is `open_`. -/
structure OHLCVCandle where
  timestamp : ℤ
  open_ : ℚ
  high : ℚ
  low : ℚ
  close : ℚ
  volume : ℚ

/-- JS `parseFloat(x.toFixed(d))`: rounding to `d` decimal places (ties
away from zero for the positive values that occur here); monotone. -/
def toFixedRound (d : ℕ) (x : ℚ) : ℚ := ((⌊x * 10 ^ d + 1 / 2⌋ : ℤ) : ℚ) / 10 ^ d

namespace DexModule

/-- One intra-candle sub-step (src/unnamed/part_001:121-128): draw a
gaussian `dW = gaussian() * sqrt(dt)`, multiply `current` by the GBM
factor `exp((drift - 0.5·vol²)·dt + vol·dW)`, floor the result at 0.0001.
`jsExp` and `jsSqrt` abstract the transcendental `Math.exp`/`Math.sqrt`;
`bm` abstracts the Box-Muller kernel inside `gaussian`. -/
def tickStep (jsExp : ℚ → ℚ) (bm : ℚ → ℚ → ℚ) (jsSqrt : ℚ → ℚ)
    (drift volatility dt : ℚ) (s : ℕ) (current : ℚ) : ℕ × ℚ :=
  let g := PRNG.gaussian bm s 0 1
  let dW := g.2 * jsSqrt dt
  (g.1,
    max (current * jsExp ((drift - 0.5 * volatility * volatility) * dt + volatility * dW))
      0.0001)

/-- The `ticks` sub-step loop (src/unnamed/part_001:121-128), carrying
(state, current, running high, running low); written with `Nat.rec` over
the remaining tick count so one iteration unfolds by iota reduction. -/
def tickLoop (jsExp : ℚ → ℚ) (bm : ℚ → ℚ → ℚ) (jsSqrt : ℚ → ℚ)
    (drift volatility dt : ℚ) (t : ℕ) (acc : ℕ × ℚ × ℚ × ℚ) : ℕ × ℚ × ℚ × ℚ :=
  @Nat.rec (fun _ => (ℕ × ℚ × ℚ × ℚ) → ℕ × ℚ × ℚ × ℚ)
    (fun a => a)
    (fun _ ih a =>
      let r := tickStep jsExp bm jsSqrt drift volatility dt a.1 a.2.1
      ih (r.1, r.2, max a.2.2.1 r.2, min a.2.2.2 r.2))
    t acc

/-- Specification-side list of the sub-step prices of one candle: the
successive values `current` takes after each `tickStep`. -/
def tickPrices (jsExp : ℚ → ℚ) (bm : ℚ → ℚ → ℚ) (jsSqrt : ℚ → ℚ)
    (drift volatility dt : ℚ) (t : ℕ) (s : ℕ) (current : ℚ) : List ℚ :=
  @Nat.rec (fun _ => ℕ → ℚ → List ℚ)
    (fun _ _ => [])
    (fun _ ih s0 c0 =>
      let r := tickStep jsExp bm jsSqrt drift volatility dt s0 c0
      r.2 :: ih r.1 r.2)
    t s current

/-- One candle (src/unnamed/part_001:112-145) starting at `price`: draw
`ticks = int(10, 50)`, run the sub-step loop from `(open, open, open)`
with `dt = 1/ticks`, draw the base volume (`plVal` abstracts the
`Math.pow` value of `powerLaw(1000, 10_000_000, 1.3)` as a function of the
drawn `u`, the draw itself advancing the register exactly once), scale it
by `1 + priceChange * 10`, and assemble the rounded candle.  Returns the
candle, the register, and the closing price carried to the next candle. -/
def makeCandle (jsExp : ℚ → ℚ) (bm : ℚ → ℚ → ℚ) (jsSqrt : ℚ → ℚ) (plVal : ℚ → ℚ)
    (drift volatility : ℚ) (timestamp : ℤ) (s : ℕ) (price : ℚ) :
    OHLCVCandle × ℕ × ℚ :=
  let op := price
  let rt := PRNG.int s 10 50
  let ticks := rt.2.toNat
  let res := tickLoop jsExp bm jsSqrt drift volatility (1 / (ticks : ℚ)) ticks (rt.1, op, op, op)
  let close := res.2.1
  let high := res.2.2.1
  let low := res.2.2.2
  let priceChange := |close - op| / op
  let rv := PRNG.next res.1
  let baseVolume := plVal rv.2
  let volume := baseVolume * (1 + priceChange * 10)
  ({ timestamp := timestamp
     open_ := toFixedRound 8 op
     high := toFixedRound 8 high
     low := toFixedRound 8 low
     close := toFixedRound 8 close
     volume := toFixedRound 2 volume }, rv.1, close)

/-- The candle loop (src/unnamed/part_001:110-148): one candle per
iteration, each candle's open being the carried price (the previous
close); `i` is the index of the next candle, fixing its timestamp. -/
def candlesGo (jsExp : ℚ → ℚ) (bm : ℚ → ℚ → ℚ) (jsSqrt : ℚ → ℚ) (plVal : ℚ → ℚ)
    (drift volatility : ℚ) (startTime intervalSec : ℤ)
    (fuel i : ℕ) (s : ℕ) (price : ℚ) : List OHLCVCandle :=
  @Nat.rec (fun _ => ℕ → ℕ → ℚ → List OHLCVCandle)
    (fun _ _ _ => [])
    (fun _ ih i0 s0 p0 =>
      let r := makeCandle jsExp bm jsSqrt plVal drift volatility
        (startTime + (i0 : ℤ) * intervalSec) s0 p0
      r.1 :: ih (i0 + 1) r.2.1 r.2.2)
    fuel i s price

/-- Embedding of DexModule.candles (src/unnamed/part_001:88-149) with the
option fields resolved (when the caller omits `startPrice`, `volatility`
or `drift` the source draws them from `rng.float` first; that only fixes
particular values of the universally quantified parameters and register
below).  `startTime` stands for `now - count * intervalSec`. -/
def candles (jsExp : ℚ → ℚ) (bm : ℚ → ℚ → ℚ) (jsSqrt : ℚ → ℚ) (plVal : ℚ → ℚ)
    (count : ℕ) (startPrice volatility drift : ℚ) (startTime intervalSec : ℤ)
    (s : ℕ) : List OHLCVCandle :=
  candlesGo jsExp bm jsSqrt plVal drift volatility startTime intervalSec count 0 s startPrice

end DexModule

theorem PRNG.mix_lt (s1 : ℕ) : PRNG.mix s1 < 2 ^ 32 := by
  unfold PRNG.mix
  have h32 : (0:ℕ) < 2 ^ 32 := by norm_num
  set t1 := ((s1 ^^^ (s1 >>> 15)) * (1 ||| s1)) % 2 ^ 32 with ht1def
  have ht1 : t1 < 2 ^ 32 := Nat.mod_lt _ h32
  set X := (t1 + ((t1 ^^^ (t1 >>> 7)) * (61 ||| t1)) % 2 ^ 32) % 2 ^ 32 with hXdef
  have hX : X < 2 ^ 32 := Nat.mod_lt _ h32
  have ht2 : X ^^^ t1 < 2 ^ 32 := Nat.xor_lt_two_pow hX ht1
  have hshift : (X ^^^ t1) >>> 14 ≤ X ^^^ t1 := by
    rw [Nat.shiftRight_eq_div_pow]; exact Nat.div_le_self _ _
  exact Nat.xor_lt_two_pow ht2 (lt_of_le_of_lt hshift ht2)

theorem PRNG.next_nonneg (s : ℕ) : 0 ≤ (PRNG.next s).2 := by
  unfold PRNG.next
  positivity

theorem PRNG.next_lt_one (s : ℕ) : (PRNG.next s).2 < 1 := by
  unfold PRNG.next
  rw [div_lt_one (by norm_num)]
  have := PRNG.mix_lt (PRNG.nextState s)
  have : (PRNG.mix (PRNG.nextState s) : ℚ) < ((2 ^ 32 : ℕ) : ℚ) := by exact_mod_cast this
  calc (PRNG.mix (PRNG.nextState s) : ℚ) < ((2 ^ 32 : ℕ) : ℚ) := this
    _ = 4294967296 := by norm_num

theorem PRNG.int_bounds (s : ℕ) {mn mx : ℤ} (h : mn ≤ mx) :
    mn ≤ (PRNG.int s mn mx).2 ∧ (PRNG.int s mn mx).2 ≤ mx := by
  unfold PRNG.int
  dsimp only
  have hu0 := PRNG.next_nonneg s
  have hu1 := PRNG.next_lt_one s
  set u := (PRNG.next s).2 with hu
  have hn0 : (0:ℚ) < (mx : ℚ) - (mn : ℚ) + 1 := by
    have : (mn : ℚ) ≤ (mx : ℚ) := by exact_mod_cast h
    linarith
  have hfl0 : 0 ≤ ⌊u * ((mx : ℚ) - (mn : ℚ) + 1)⌋ :=
    Int.floor_nonneg.mpr (mul_nonneg hu0 (le_of_lt hn0))
  have hflt : ⌊u * ((mx : ℚ) - (mn : ℚ) + 1)⌋ < mx - mn + 1 := by
    rw [Int.floor_lt]
    have : u * ((mx : ℚ) - (mn : ℚ) + 1) < 1 * ((mx : ℚ) - (mn : ℚ) + 1) :=
      mul_lt_mul_of_pos_right hu1 hn0
    rw [one_mul] at this
    calc u * ((mx : ℚ) - (mn : ℚ) + 1) < (mx : ℚ) - (mn : ℚ) + 1 := this
      _ = ((mx - mn + 1 : ℤ) : ℚ) := by push_cast; ring
  constructor
  · linarith [hfl0]
  · linarith [hflt]

set_option maxRecDepth 40000

/-- C3: for every register value, `next()` returns `k / 2^32` for a
natural `k < 2^32` — hence a value in `[0, 1)` — where `k` is the unsigned
32-bit result of the Mulberry32 mixing formula (add 0x6D2B79F5 to the
register, then the xor/shift/multiply mixing steps), every addition and
multiplication truncated to 32 bits, the register embedded by the
unsigned representative of its 32-bit two's-complement value. -/
theorem c3_next_mulberry32 (s : ℕ) :
    ∃ k : ℕ, k < 2 ^ 32 ∧ (PRNG.next s).2 = (k : ℚ) / 2 ^ 32 ∧
      0 ≤ (PRNG.next s).2 ∧ (PRNG.next s).2 < 1 ∧
      k = (let r := (s % 2 ^ 32 + 0x6d2b79f5) % 2 ^ 32
           let t1 := ((r ^^^ (r >>> 15)) * (1 ||| r)) % 2 ^ 32
           let t2 := ((t1 + ((t1 ^^^ (t1 >>> 7)) * (61 ||| t1)) % 2 ^ 32) % 2 ^ 32) ^^^ t1
           t2 ^^^ (t2 >>> 14)) := by
  refine ⟨PRNG.mix (PRNG.nextState s), PRNG.mix_lt _, ?_,
    PRNG.next_nonneg s, PRNG.next_lt_one s, rfl⟩
  unfold PRNG.next
  norm_num

/-- C6: for integers `min ≤ max`, `int(min, max)` returns
`⌊next() * (max - min + 1)⌋ + min`, which lies in `[min, max]` inclusive. -/
theorem c6_int_range (s : ℕ) (mn mx : ℤ) (h : mn ≤ mx) :
    (PRNG.int s mn mx).2 = ⌊(PRNG.next s).2 * ((mx : ℚ) - (mn : ℚ) + 1)⌋ + mn ∧
      mn ≤ (PRNG.int s mn mx).2 ∧ (PRNG.int s mn mx).2 ≤ mx :=
  ⟨rfl, PRNG.int_bounds s h⟩

/-- Witness for c6_int_range at `s = 0`, `min = 0`, `max = 10`. -/
theorem c6_int_range_witness :
    (0:ℤ) ≤ 10 ∧ ((0:ℤ) ≤ (PRNG.int 0 0 10).2 ∧ (PRNG.int 0 0 10).2 ≤ 10) :=
  ⟨by decide, (c6_int_range 0 0 10 (by decide)).2⟩

/-- C1 counterexample: the lowercase-hex digest of the empty input is not
the 63-character string quoted in the spec (which dropped the final 0 of
the published digest). -/
theorem c1_counterexample :
    keccak256Hex "" ≠
      "c5d2460186f7233c927e7db2dcc703c0e500b653ca82273b7bfad8045d85a47" := by
  decide

/-- C1 (amended): keccak256 of the empty byte sequence is a 32-byte digest
whose lowercase-hex encoding is the published
c5d2460186f7233c927e7db2dcc703c0e500b653ca82273b7bfad8045d85a470, and
keccak256 of the three ASCII bytes of "abc" hex-encodes to its published
digest 4e03657aea45a94fc7d47ba826c8d667c0d1e6e33a64a036ec44f58fa12d6c45. -/
theorem c1_keccak_known_answers :
    (keccak256 (stringToBytes "")).length = 32 ∧
    keccak256Hex "" =
      "c5d2460186f7233c927e7db2dcc703c0e500b653ca82273b7bfad8045d85a470" ∧
    keccak256Hex "abc" =
      "4e03657aea45a94fc7d47ba826c8d667c0d1e6e33a64a036ec44f58fa12d6c45" := by
  refine ⟨by decide, by decide, by decide⟩

/-- C4 counterexample: picking from the empty sequence does not fail with
an EmptyInputError — the source has no error path at all — it performs the
out-of-bounds read `arr[0]`, returning `undefined` (`none`), and the
register still advances. -/
theorem c4_counterexample :
    (PRNG.pick 0 ([] : List ℕ)).2 = none ∧ (PRNG.pick 0 ([] : List ℕ)).1 ≠ 0 := by
  constructor
  · rfl
  · decide

/-- C4 (amended): pick never raises: it always advances the register by
one draw; on the empty sequence it returns the out-of-bounds `undefined`
(`none`); on a non-empty sequence the drawn index `int(0, len-1)` is in
bounds and the result is the (defined) element at that index. -/
theorem c4_pick_amended {α : Type} (s : ℕ) (arr : List α) :
    (PRNG.pick s arr).1 = PRNG.nextState s ∧
    (arr = [] → (PRNG.pick s arr).2 = none) ∧
    (arr ≠ [] →
      ((PRNG.int s 0 ((arr.length : ℤ) - 1)).2).toNat < arr.length ∧
      (PRNG.pick s arr).2 =
        arr.get? ((PRNG.int s 0 ((arr.length : ℤ) - 1)).2).toNat ∧
      (PRNG.pick s arr).2 ≠ none) := by
  refine ⟨rfl, fun h => by subst h; rfl, fun h => ?_⟩
  have hlen : 1 ≤ arr.length := List.length_pos.mpr h
  have hle : (0 : ℤ) ≤ (arr.length : ℤ) - 1 := by
    have : (1 : ℤ) ≤ (arr.length : ℤ) := by exact_mod_cast hlen
    linarith
  obtain ⟨h0, h1⟩ := PRNG.int_bounds s hle
  have hidx : ((PRNG.int s 0 ((arr.length : ℤ) - 1)).2).toNat < arr.length := by
    omega
  refine ⟨hidx, rfl, ?_⟩
  rw [show (PRNG.pick s arr).2 =
    arr.get? ((PRNG.int s 0 ((arr.length : ℤ) - 1)).2).toNat from rfl]
  rw [List.get?_eq_get hidx]
  exact Option.some_ne_none _

/-- Witness for c4_pick_amended at `s = 0`, `arr = [3]`. -/
theorem c4_pick_amended_witness :
    ((PRNG.int 0 0 ((([3] : List ℕ).length : ℤ) - 1)).2).toNat < ([3] : List ℕ).length ∧
    (PRNG.pick 0 ([3] : List ℕ)).2 =
      ([3] : List ℕ).get? ((PRNG.int 0 0 ((([3] : List ℕ).length : ℤ) - 1)).2).toNat ∧
    (PRNG.pick 0 ([3] : List ℕ)).2 ≠ none :=
  (c4_pick_amended 0 [3]).2.2 (by decide)

theorem jsPowP_exp_zero (x : JSNum) : jsPowP x (JSNum.num 0) = some (JSNum.num 1) := by
  cases x <;> simp [jsPowP]

theorem jsPowP_one_inf (b : Bool) : jsPowP (JSNum.num 1) (JSNum.inf b) = some JSNum.nan := by
  simp [jsPowP]

theorem PRNG.powerLaw_val_alpha_one (s : ℕ) (mn mx : ℚ) :
    (PRNG.powerLaw s mn mx 1).2 = some JSNum.nan := by
  have e1 : (PRNG.powerLaw s mn mx 1).2 =
      (jsPowP (JSNum.num mn) (JSNum.num (1 - 1))).bind fun mA =>
      (jsPowP (JSNum.num mx) (JSNum.num (1 - 1))).bind fun xA =>
        jsPowP (JSNum.add mA (JSNum.mul (JSNum.num (PRNG.next s).2) (JSNum.sub xA mA)))
          (jsDivQ 1 (1 - 1)) := rfl
  have h0 : (1 : ℚ) - 1 = 0 := by norm_num
  rw [e1, h0, jsPowP_exp_zero, jsPowP_exp_zero, Option.some_bind, Option.some_bind]
  have e2 : JSNum.sub (JSNum.num 1) (JSNum.num 1) = JSNum.num 0 := by
    show JSNum.num (1 - 1) = JSNum.num 0
    rw [h0]
  have e3 : JSNum.mul (JSNum.num (PRNG.next s).2) (JSNum.num 0) = JSNum.num 0 := by
    show JSNum.num ((PRNG.next s).2 * 0) = JSNum.num 0
    rw [mul_zero]
  have e4 : JSNum.add (JSNum.num 1) (JSNum.num 0) = JSNum.num 1 := by
    show JSNum.num (1 + 0) = JSNum.num 1
    rw [add_zero]
  have e5 : jsDivQ 1 0 = JSNum.inf (decide ((0:ℚ) < 1)) := by
    show (if (0:ℚ) = 0 then (if (1:ℚ) = 0 then JSNum.nan else JSNum.inf (decide ((0:ℚ) < 1)))
      else JSNum.num (1 / 0)) = JSNum.inf (decide ((0:ℚ) < 1))
    rw [if_pos rfl, if_neg one_ne_zero]
  rw [e2, e3, e4, e5, jsPowP_one_inf]

/-- C5 counterexample: powerLaw(1, 2, alpha = 1) does not fail with a
DomainError — the source validates nothing — it draws next() first, so the
register advances, and the value evaluates to NaN
(`Math.pow(1, 1/(1-1)) = Math.pow(1, Infinity) = NaN`). -/
theorem c5_counterexample :
    (PRNG.powerLaw 0 1 2 1).2 = some JSNum.nan ∧ (PRNG.powerLaw 0 1 2 1).1 ≠ 0 := by
  refine ⟨PRNG.powerLaw_val_alpha_one 0 1 2, ?_⟩
  decide

/-- C5 (amended): powerLaw performs no precondition validation: for every
min, max, alpha (including alpha = 1, min ≤ 0 or max ≤ min) the call
raises no error and advances the register by exactly the one next() draw
made before anything else; when alpha = 1 the returned value is NaN. -/
theorem c5_powerlaw_amended (s : ℕ) (mn mx alpha : ℚ) :
    (PRNG.powerLaw s mn mx alpha).1 = PRNG.nextState s ∧
    (alpha = 1 → (PRNG.powerLaw s mn mx alpha).2 = some JSNum.nan) := by
  refine ⟨rfl, fun h => ?_⟩
  subst h
  exact PRNG.powerLaw_val_alpha_one s mn mx

/-- Witness for c5_powerlaw_amended at `s = 0`, `min = 5`, `max = 7`,
`alpha = 1`. -/
theorem c5_powerlaw_amended_witness :
    (PRNG.powerLaw 0 5 7 1).1 = PRNG.nextState 0 ∧
    (PRNG.powerLaw 0 5 7 1).2 = some JSNum.nan :=
  ⟨(c5_powerlaw_amended 0 5 7 1).1, (c5_powerlaw_amended 0 5 7 1).2 rfl⟩

/-- All 25 lanes are in the unsigned 64-bit range. -/
def inRange64 (s : List ℤ) : Prop := ∀ v ∈ s, 0 ≤ v ∧ v < 2 ^ 64

instance (s : List ℤ) : Decidable (inRange64 s) := by
  unfold inRange64
  infer_instance

theorem jsXor_range {a b : ℤ} (ha : 0 ≤ a) (hb : 0 ≤ b)
    (ha64 : a < 2 ^ 64) (hb64 : b < 2 ^ 64) :
    0 ≤ jsXor a b ∧ jsXor a b < 2 ^ 64 := by
  unfold jsXor
  rw [if_pos ha, if_pos hb]
  refine ⟨Int.ofNat_nonneg _, ?_⟩
  have h1 : a.toNat < 2 ^ 64 := by omega
  have h2 : b.toNat < 2 ^ 64 := by omega
  have h3 := Nat.xor_lt_two_pow h1 h2
  omega

theorem jsOr_range {a b : ℤ} (ha : 0 ≤ a) (hb : 0 ≤ b)
    (ha64 : a < 2 ^ 64) (hb64 : b < 2 ^ 64) :
    0 ≤ jsOr a b ∧ jsOr a b < 2 ^ 64 := by
  unfold jsOr
  rw [if_pos ha, if_pos hb]
  refine ⟨Int.ofNat_nonneg _, ?_⟩
  have h1 : a.toNat < 2 ^ 64 := by omega
  have h2 : b.toNat < 2 ^ 64 := by omega
  have h3 := Nat.or_lt_two_pow h1 h2
  omega

theorem jsAnd_mask {m : ℤ} (a : ℤ) (hm : 0 ≤ m) : 0 ≤ jsAnd a m ∧ jsAnd a m ≤ m := by
  unfold jsAnd
  by_cases ha : 0 ≤ a
  · rw [if_pos ha, if_pos hm]
    refine ⟨Int.ofNat_nonneg _, ?_⟩
    have h1 := Nat.and_le_right (n := a.toNat) (m := m.toNat)
    omega
  · rw [if_neg ha, if_pos hm]
    refine ⟨Int.ofNat_nonneg _, ?_⟩
    have h1 : m.toNat - (m.toNat &&& (-a - 1).toNat) ≤ m.toNat := Nat.sub_le _ _
    omega

theorem jsAnd_not_range {a b : ℤ} (ha : 0 ≤ a) (hb : 0 ≤ b) (hb64 : b < 2 ^ 64) :
    0 ≤ jsAnd (jsNot a) b ∧ jsAnd (jsNot a) b < 2 ^ 64 := by
  have hneg : ¬ (0 ≤ jsNot a) := by unfold jsNot; omega
  unfold jsAnd
  rw [if_neg hneg, if_pos hb]
  refine ⟨Int.ofNat_nonneg _, ?_⟩
  have h1 : b.toNat - (b.toNat &&& (-(jsNot a) - 1).toNat) ≤ b.toNat := Nat.sub_le _ _
  omega

theorem jsShl_byte_range {a : ℤ} {n : ℕ} (ha : 0 ≤ a) (ha8 : a < 256) (hn : n ≤ 56) :
    0 ≤ jsShl a n ∧ jsShl a n < 2 ^ 64 := by
  unfold jsShl
  have hp : (0:ℤ) < 2 ^ n := pow_pos (by norm_num) n
  refine ⟨mul_nonneg ha (le_of_lt hp), ?_⟩
  have h1 : a * 2 ^ n ≤ 255 * 2 ^ 56 := by
    have h2 : (2:ℤ) ^ n ≤ 2 ^ 56 := pow_le_pow_right₀ (by norm_num) hn
    have h3 : a ≤ 255 := by omega
    exact mul_le_mul h3 h2 (le_of_lt hp) (by norm_num)
  calc a * 2 ^ n ≤ 255 * 2 ^ 56 := h1
    _ < 2 ^ 64 := by norm_num

theorem jsShr_range {a : ℤ} (n : ℕ) (ha : 0 ≤ a) (ha64 : a < 2 ^ 64) :
    0 ≤ jsShr a n ∧ jsShr a n < 2 ^ 64 := by
  obtain ⟨m, rfl⟩ := Int.eq_ofNat_of_zero_le ha
  have he : jsShr ((m : ℕ) : ℤ) n = ((m >>> n : ℕ) : ℤ) := rfl
  rw [he]
  have h1 : m >>> n ≤ m := by
    rw [Nat.shiftRight_eq_div_pow]
    exact Nat.div_le_self _ _
  refine ⟨Int.ofNat_nonneg _, ?_⟩
  omega

theorem rotl64_range (x : ℤ) (n : ℕ) : 0 ≤ rotl64 x n ∧ rotl64 x n < 2 ^ 64 := by
  unfold rotl64
  have h := jsAnd_mask (jsOr (jsShl x n) (jsShr x (64 - n)))
    (m := (0xffffffffffffffff : ℤ)) (by norm_num)
  exact ⟨h.1, lt_of_le_of_lt h.2 (by norm_num)⟩

theorem getD_range {s : List ℤ} (h : inRange64 s) (i : ℕ) :
    0 ≤ s.getD i 0 ∧ s.getD i 0 < 2 ^ 64 := by
  by_cases hi : i < s.length
  · rw [List.getD_eq_getElem s 0 hi]
    exact h _ (List.getElem_mem hi)
  · rw [List.getD_eq_default s 0 (Nat.le_of_not_lt hi)]
    norm_num

theorem thetaC_range {s : List ℤ} (h : inRange64 s) : inRange64 (thetaC s) := by
  intro w hw
  unfold thetaC at hw
  simp only [List.mem_map, List.mem_range] at hw
  obtain ⟨x, _, rfl⟩ := hw
  have g0 := getD_range h x
  have g5 := getD_range h (x + 5)
  have g10 := getD_range h (x + 10)
  have g15 := getD_range h (x + 15)
  have g20 := getD_range h (x + 20)
  have h1 := jsXor_range g0.1 g5.1 g0.2 g5.2
  have h2 := jsXor_range h1.1 g10.1 h1.2 g10.2
  have h3 := jsXor_range h2.1 g15.1 h2.2 g15.2
  exact jsXor_range h3.1 g20.1 h3.2 g20.2

theorem theta_range {s : List ℤ} (h : inRange64 s) : inRange64 (theta s) := by
  intro v hv
  unfold theta at hv
  simp only [List.mem_map, List.mem_range] at hv
  obtain ⟨i, _, rfl⟩ := hv
  have hC := thetaC_range h
  have hc1 := getD_range hC ((i % 5 + 4) % 5)
  have hrot := rotl64_range ((thetaC s).getD ((i % 5 + 1) % 5) 0) 1
  have hD := jsXor_range hc1.1 hrot.1 hc1.2 hrot.2
  have hs := getD_range h i
  exact jsXor_range hs.1 hD.1 hs.2 hD.2

theorem rhoPi_range {s : List ℤ} (h : inRange64 s) : inRange64 (rhoPi s) := by
  unfold rhoPi
  have h2 := @List.foldlRecOn (List ℤ × ℤ) ℕ
    (fun p => inRange64 p.1 ∧ 0 ≤ p.2 ∧ p.2 < 2 ^ 64) (List.range 24)
    (fun acc i =>
      let j := PI.getD i 0
      let temp := acc.1.getD j 0
      (acc.1.set j (rotl64 acc.2 (ROTC.getD i 0)), temp))
    (s, s.getD 1 0) ⟨h, getD_range h 1⟩ ?step
  · exact h2.1
  case step =>
    intro b hb a _
    dsimp only
    constructor
    · intro v hv
      rcases List.mem_or_eq_of_mem_set hv with h1 | h1
      · exact hb.1 v h1
      · subst h1
        exact rotl64_range b.2 (ROTC.getD a 0)
    · exact getD_range hb.1 _

theorem chi_range {s : List ℤ} (h : inRange64 s) : inRange64 (chi s) := by
  intro v hv
  unfold chi at hv
  simp only [List.mem_map, List.mem_range] at hv
  obtain ⟨i, _, rfl⟩ := hv
  have g1 := getD_range h (5 * (i / 5) + i % 5)
  have g2 := getD_range h (5 * (i / 5) + (i % 5 + 1) % 5)
  have g3 := getD_range h (5 * (i / 5) + (i % 5 + 2) % 5)
  have h1 := jsAnd_not_range g2.1 g3.1 g3.2
  exact jsXor_range g1.1 h1.1 g1.2 h1.2

theorem iotaStep_range (round : ℕ) {s : List ℤ} (h : inRange64 s) :
    inRange64 (iotaStep round s) := by
  have hRC : inRange64 RC := by decide
  intro v hv
  unfold iotaStep at hv
  rcases List.mem_or_eq_of_mem_set hv with h1 | h1
  · exact h v h1
  · subst h1
    have g := getD_range h 0
    have gr := getD_range hRC round
    exact jsXor_range g.1 gr.1 g.2 gr.2

theorem keccakF_range {s : List ℤ} (h : inRange64 s) : inRange64 (keccakF s) := by
  unfold keccakF
  exact @List.foldlRecOn (List ℤ) ℕ (fun st => inRange64 st) (List.range 24)
    (fun st round => iotaStep round (chi (rhoPi (theta st)))) s h
    (fun st hst round _ => iotaStep_range round (chi_range (rhoPi_range (theta_range hst))))

theorem getD_lt_256 {l : List ℕ} (h : ∀ b ∈ l, b < 256) (i : ℕ) : l.getD i 0 < 256 := by
  by_cases hi : i < l.length
  · rw [List.getD_eq_getElem l 0 hi]
    exact h _ (List.getElem_mem hi)
  · rw [List.getD_eq_default l 0 (Nat.le_of_not_lt hi)]
    norm_num

theorem keccakPad_bytes {input : List ℕ} (h : ∀ b ∈ input, b < 256) :
    ∀ b ∈ keccakPad input, b < 256 := by
  intro v hv
  unfold keccakPad at hv
  dsimp only at hv
  have hbase : ∀ b ∈ input ++ 1 :: List.replicate
      (((input.length + 1 + 135) / 136) * 136 - input.length - 1) 0, b < 256 := by
    intro w hw
    rcases List.mem_append.mp hw with hw | hw
    · exact h w hw
    · rcases List.mem_cons.mp hw with hw | hw
      · omega
      · have := List.eq_of_mem_replicate hw
        omega
  rcases List.mem_or_eq_of_mem_set hv with h1 | h1
  · exact hbase v h1
  · subst h1
    have hg : (input ++ 1 :: List.replicate
        (((input.length + 1 + 135) / 136) * 136 - input.length - 1) 0).getD
        (((input.length + 1 + 135) / 136) * 136 - 1) 0 < 2 ^ 8 := by
      have := getD_lt_256 hbase (((input.length + 1 + 135) / 136) * 136 - 1)
      omega
    have h128 : (0x80 : ℕ) < 2 ^ 8 := by norm_num
    have := Nat.or_lt_two_pow hg h128
    omega

theorem absorbBlock_range {st : List ℤ} {block : List ℕ}
    (hst : inRange64 st) (hb : ∀ b ∈ block, b < 256) :
    inRange64 (absorbBlock st block) := by
  unfold absorbBlock
  refine @List.foldlRecOn (List ℤ) ℕ (fun t => inRange64 t) (List.range 17) _ st hst ?_
  intro st2 hst2 i _
  dsimp only
  have hlane : 0 ≤ (List.range 8).foldl
      (fun lane b => jsOr lane (jsShl ((block.getD (i * 8 + b) 0 : ℕ) : ℤ) (b * 8))) 0 ∧
      (List.range 8).foldl
      (fun lane b => jsOr lane (jsShl ((block.getD (i * 8 + b) 0 : ℕ) : ℤ) (b * 8))) 0 < 2 ^ 64 := by
    refine @List.foldlRecOn ℤ ℕ (fun lane => 0 ≤ lane ∧ lane < 2 ^ 64) (List.range 8) _ 0
      (by norm_num) ?_
    intro lane hlane b hbmem
    dsimp only
    have hb8 : b < 8 := List.mem_range.mp hbmem
    have hbyte : ((block.getD (i * 8 + b) 0 : ℕ) : ℤ) < 256 := by
      have := getD_lt_256 hb (i * 8 + b)
      omega
    have hshl := jsShl_byte_range (by positivity) hbyte (by omega : b * 8 ≤ 56)
    exact jsOr_range hlane.1 hshl.1 hlane.2 hshl.2
  intro v hv
  rcases List.mem_or_eq_of_mem_set hv with h1 | h1
  · exact hst2 v h1
  · subst h1
    have g := getD_range hst2 i
    exact jsXor_range g.1 hlane.1 g.2 hlane.2

theorem absorbGo_range : ∀ (fuel : ℕ) (st : List ℤ) (padded : List ℕ),
    inRange64 st → (∀ b ∈ padded, b < 256) → inRange64 (absorbGo st padded fuel)
  | 0, _, _, hst, _ => hst
  | Nat.succ k, st, padded, hst, hp =>
      absorbGo_range k _ _
        (keccakF_range (absorbBlock_range hst fun b hbm => hp b (List.mem_of_mem_take hbm)))
        (fun b hbm => hp b (List.mem_of_mem_drop hbm))

theorem jsAnd_ff_toNat (a : ℤ) : (jsAnd a 0xff).toNat ≤ 255 := by
  have h := jsAnd_mask a (show (0:ℤ) ≤ 0xff by norm_num)
  omega

theorem keccak256_length (input : List ℕ) : (keccak256 input).length = 32 := by
  unfold keccak256
  dsimp only
  rw [List.length_map, List.length_range]

theorem keccak256_byte_le (input : List ℕ) : ∀ b ∈ keccak256 input, b ≤ 255 := by
  intro b hb
  unfold keccak256 at hb
  dsimp only at hb
  simp only [List.mem_map, List.mem_range] at hb
  obtain ⟨i, _, rfl⟩ := hb
  exact jsAnd_ff_toNat _

/-- C9: throughout every keccak256 computation each of the 25 lanes stays
a nonnegative integer below 2^64 after every step (Theta, Rho+Pi, Chi —
whose bitwise NOT produces negative bigint intermediates but always stores
an in-range masked value — and Iota) of each round, the absorb step
preserves the range for byte input, and keccak256 returns exactly 32
bytes, each in [0, 255], for every input byte sequence. -/
theorem c9_keccak_lane_invariant :
    (∀ s, inRange64 s → inRange64 (theta s)) ∧
    (∀ s, inRange64 s → inRange64 (rhoPi s)) ∧
    (∀ s, inRange64 s → inRange64 (chi s)) ∧
    (∀ round s, inRange64 s → inRange64 (iotaStep round s)) ∧
    (∀ s, inRange64 s → inRange64 (keccakF s)) ∧
    (∀ st block, inRange64 st → (∀ b ∈ block, b < 256) → inRange64 (absorbBlock st block)) ∧
    (∀ input, (keccak256 input).length = 32 ∧ ∀ b ∈ keccak256 input, b ≤ 255) :=
  ⟨fun _ h => theta_range h, fun _ h => rhoPi_range h, fun _ h => chi_range h,
   fun r _ h => iotaStep_range r h, fun _ h => keccakF_range h,
   fun _ _ h hb => absorbBlock_range h hb,
   fun input => ⟨keccak256_length input, keccak256_byte_le input⟩⟩

/-- Witness for c9_keccak_lane_invariant at the all-zero state and the
empty input. -/
theorem c9_keccak_lane_invariant_witness :
    inRange64 (theta (List.replicate 25 0)) ∧ (keccak256 []).length = 32 :=
  ⟨c9_keccak_lane_invariant.1 (List.replicate 25 0) (by decide),
   (c9_keccak_lane_invariant.2.2.2.2.2.2 []).1⟩

theorem hexVal_hexChar : ∀ n < 16, hexVal (hexChar n) = n := by decide

theorem bytesToHex_data_length (ds : List ℕ) : (bytesToHex ds).data.length = 2 * ds.length := by
  induction ds with
  | nil => rfl
  | cons d tl ih =>
      show (hexByte d ++ (bytesToHex tl).data).length = 2 * (tl.length + 1)
      rw [List.length_append, ih]
      simp [hexByte]
      omega

theorem bytesToHex_getD (ds : List ℕ) :
    ∀ i, i < 2 * ds.length →
      (bytesToHex ds).data.getD i '0' =
        hexChar (if i % 2 = 0 then ds.getD (i / 2) 0 / 16 else ds.getD (i / 2) 0 % 16) := by
  induction ds with
  | nil => intro i hi; simp at hi
  | cons d tl ih =>
      intro i hi
      have hcons : (bytesToHex (d :: tl)).data =
          hexChar (d / 16) :: hexChar (d % 16) :: (bytesToHex tl).data := rfl
      rcases i with _ | _ | n
      · rw [hcons]; rfl
      · rw [hcons]; rfl
      · rw [hcons]
        show (bytesToHex tl).data.getD n '0' = _
        have hn : n < 2 * tl.length := by
          simp only [List.length_cons] at hi
          omega
        rw [ih n hn]
        have h1 : (n + 1 + 1) % 2 = n % 2 := by omega
        have h2 : (n + 1 + 1) / 2 = n / 2 + 1 := by omega
        rw [h1, h2]
        rfl

/-- Modelled from the spec: the casing rule worded via digest nibbles —
character `i` of the 40 hex characters is upper-cased exactly when the
nibble of digest byte `i/2` (high nibble if `i` is even, low nibble if `i`
is odd) is at least 8. -/
def checksumSpec (bytes : List ℕ) : String :=
  let hex := (bytesToHex bytes).data
  let digest := keccak256 (hex.map Char.toNat)
  ⟨'0' :: 'x' :: ((List.range 40).map fun i =>
    let nib := if i % 2 = 0 then digest.getD (i / 2) 0 / 16 else digest.getD (i / 2) 0 % 16
    if 8 ≤ nib then upperHexChar (hex.getD i '0') else hex.getD i '0')⟩

theorem toChecksumAddress_eq_spec (bytes : List ℕ) :
    toChecksumAddress bytes = checksumSpec bytes := by
  unfold toChecksumAddress checksumSpec
  dsimp only
  refine congrArg String.mk (congrArg (List.cons '0') (congrArg (List.cons 'x') ?_))
  refine List.map_congr_left ?_
  intro i hi
  have hi40 : i < 40 := List.mem_range.mp hi
  have hlen := keccak256_length ((bytesToHex bytes).data.map Char.toNat)
  have hbound : i < 2 * (keccak256 ((bytesToHex bytes).data.map Char.toNat)).length := by
    omega
  rw [bytesToHex_getD _ i hbound]
  have hdig : (keccak256 ((bytesToHex bytes).data.map Char.toNat)).getD (i / 2) 0 ≤ 255 := by
    have hi2 : i / 2 < (keccak256 ((bytesToHex bytes).data.map Char.toNat)).length := by omega
    rw [List.getD_eq_getElem _ 0 hi2]
    exact keccak256_byte_le _ _ (List.getElem_mem hi2)
  have hnib : (if i % 2 = 0 then
      (keccak256 ((bytesToHex bytes).data.map Char.toNat)).getD (i / 2) 0 / 16
      else (keccak256 ((bytesToHex bytes).data.map Char.toNat)).getD (i / 2) 0 % 16) < 16 := by
    by_cases h : i % 2 = 0
    · rw [if_pos h]; omega
    · rw [if_neg h]; omega
  rw [hexVal_hexChar _ hnib]

/-- C2 counterexample: the 20 bytes with lowercase hex
5aaeb6053f3e94c9b9a09f33669435e7ef1beaed do not checksum-case to the
string quoted in the spec, 5aAeb6053F3e94C9b9A09f33669435E7Ef1BeAeD (the
spec's vector has the wrong case at position 11 and at the last
character). -/
theorem c2_counterexample :
    (toChecksumAddress
        [0x5a, 0xae, 0xb6, 0x05, 0x3f, 0x3e, 0x94, 0xc9, 0xb9, 0xa0,
         0x9f, 0x33, 0x66, 0x94, 0x35, 0xe7, 0xef, 0x1b, 0xea, 0xed]).drop 2 ≠
      "5aAeb6053F3e94C9b9A09f33669435E7Ef1BeAeD" := by
  decide

/-- C2 (amended): the checksum-casing function lowercase-hex-encodes its
input (2 characters per byte, 40 for 20 bytes), hashes the UTF-8 bytes of
that hex string, and upper-cases exactly the characters whose digest
nibble (byte `i/2`, high nibble for even `i`, low for odd) is at least 8 —
and the canonical EIP-55 vector 5aaeb6053f3e94c9b9a09f33669435e7ef1beaed
checksum-cases to 5aAeb6053F3E94C9b9A09f33669435E7Ef1BeAed (with the `0x`
prefix the source prepends). -/
theorem c2_checksum_casing :
    (∀ bytes : List ℕ, toChecksumAddress bytes = checksumSpec bytes) ∧
    (∀ bytes : List ℕ, (bytesToHex bytes).data.length = 2 * bytes.length) ∧
    toChecksumAddress
        [0x5a, 0xae, 0xb6, 0x05, 0x3f, 0x3e, 0x94, 0xc9, 0xb9, 0xa0,
         0x9f, 0x33, 0x66, 0x94, 0x35, 0xe7, 0xef, 0x1b, 0xea, 0xed] =
      "0x5aAeb6053F3E94C9b9A09f33669435E7Ef1BeAed" :=
  ⟨toChecksumAddress_eq_spec, bytesToHex_data_length, by decide⟩

theorem PRNG.int_index_lt (s : ℕ) {n : ℕ} (h : 1 ≤ n) :
    ((PRNG.int s 0 ((n : ℤ) - 1)).2).toNat < n := by
  have hle : (0 : ℤ) ≤ (n : ℤ) - 1 := by omega
  obtain ⟨h0, h1⟩ := PRNG.int_bounds s hle
  omega

theorem PRNG.int_le_toNat (s : ℕ) (m : ℕ) :
    ((PRNG.int s 0 ((m : ℕ) : ℤ)).2).toNat ≤ m := by
  obtain ⟨h0, h1⟩ := PRNG.int_bounds s (by positivity : (0:ℤ) ≤ ((m : ℕ) : ℤ))
  omega

theorem perm_getD_eraseIdx {α : Type} [Inhabited α] (l : List α) (i : ℕ) (h : i < l.length) :
    l.Perm (l.getD i default :: l.eraseIdx i) := by
  rw [List.getD_eq_getElem l default h, List.eraseIdx_eq_take_drop_succ]
  have e1 : l = l.take i ++ l[i] :: l.drop (i + 1) := by
    conv_lhs => rw [← List.take_append_drop i l]
    rw [List.getElem_cons_drop l i h]
  conv_lhs => rw [e1]
  exact List.perm_middle

theorem PRNG.pickMultipleGo_spec {α : Type} [Inhabited α] :
    ∀ (n : ℕ) (s : ℕ) (copy : List α), n ≤ copy.length →
      (PRNG.pickMultipleGo s copy n).1.length = n ∧
      ((PRNG.pickMultipleGo s copy n).1 : Multiset α) ≤ (copy : Multiset α)
  | 0, _, _, _ => ⟨rfl, by
      show (([] : List α) : Multiset α) ≤ _
      exact Multiset.zero_le _⟩
  | Nat.succ m, s, copy, h => by
      have hlen : 1 ≤ copy.length := by omega
      have hidx := PRNG.int_index_lt s hlen
      have herase : (copy.eraseIdx ((PRNG.int s 0 ((copy.length : ℤ) - 1)).2).toNat).length
          = copy.length - 1 := by
        rw [List.length_eraseIdx, if_pos hidx]
      have hm : m ≤ (copy.eraseIdx ((PRNG.int s 0 ((copy.length : ℤ) - 1)).2).toNat).length := by
        omega
      obtain ⟨ihlen, ihms⟩ := PRNG.pickMultipleGo_spec m ((PRNG.int s 0 ((copy.length : ℤ) - 1)).1)
        (copy.eraseIdx ((PRNG.int s 0 ((copy.length : ℤ) - 1)).2).toNat) hm
      constructor
      · show (_ :: _ : List α).length = _
        rw [List.length_cons, ihlen]
      · show (↑(copy.getD ((PRNG.int s 0 ((copy.length : ℤ) - 1)).2).toNat default ::
            (PRNG.pickMultipleGo ((PRNG.int s 0 ((copy.length : ℤ) - 1)).1)
              (copy.eraseIdx ((PRNG.int s 0 ((copy.length : ℤ) - 1)).2).toNat) m).1) :
            Multiset α) ≤ (copy : Multiset α)
        have hperm := perm_getD_eraseIdx copy ((PRNG.int s 0 ((copy.length : ℤ) - 1)).2).toNat hidx
        rw [← Multiset.cons_coe]
        calc (copy.getD ((PRNG.int s 0 ((copy.length : ℤ) - 1)).2).toNat default ::ₘ
              ((PRNG.pickMultipleGo ((PRNG.int s 0 ((copy.length : ℤ) - 1)).1)
                (copy.eraseIdx ((PRNG.int s 0 ((copy.length : ℤ) - 1)).2).toNat) m).1 : Multiset α))
            ≤ copy.getD ((PRNG.int s 0 ((copy.length : ℤ) - 1)).2).toNat default ::ₘ
              ((copy.eraseIdx ((PRNG.int s 0 ((copy.length : ℤ) - 1)).2).toNat : List α) : Multiset α) :=
              Multiset.cons_le_cons _ ihms
          _ = (copy : Multiset α) := by
              rw [Multiset.cons_coe]
              exact (Multiset.coe_eq_coe.mpr hperm).symm

/-- C7: pickMultiple returns exactly min(count, len(items)) elements drawn
from items without replacement (the result is a sub-multiset of items,
i.e. uses pairwise-distinct positions), in selection order (the embedding
builds the result in draw order), and the caller's array — the first
component of the embedding's result — is unchanged. -/
theorem c7_pickMultiple {α : Type} [Inhabited α] (s : ℕ) (arr : List α) (count : ℕ) :
    (PRNG.pickMultiple s arr count).1 = arr ∧
    (PRNG.pickMultiple s arr count).2.1.length = Nat.min count arr.length ∧
    ((PRNG.pickMultiple s arr count).2.1 : Multiset α) ≤ (arr : Multiset α) := by
  have h := PRNG.pickMultipleGo_spec (Nat.min count arr.length) s arr (Nat.min_le_right _ _)
  exact ⟨rfl, h.1, h.2⟩

theorem getElem_cons_set_perm {α : Type} :
    ∀ (t : List α) (m : ℕ) (h : m < t.length) (x : α), (t.get ⟨m, h⟩ :: t.set m x).Perm (x :: t)
  | [], m, h, _ => absurd h (by simp)
  | b :: r, 0, _, x => List.Perm.swap x b r
  | b :: r, Nat.succ m, h, x => by
      have hm : m < r.length := by
        simp only [List.length_cons] at h
        omega
      show (r.get ⟨m, hm⟩ :: b :: r.set m x).Perm (x :: b :: r)
      have step1 : (r.get ⟨m, hm⟩ :: b :: r.set m x).Perm (b :: r.get ⟨m, hm⟩ :: r.set m x) :=
        List.Perm.swap b (r.get ⟨m, hm⟩) (r.set m x)
      have step2 : (b :: r.get ⟨m, hm⟩ :: r.set m x).Perm (b :: x :: r) :=
        List.Perm.cons b (getElem_cons_set_perm r m hm x)
      have step3 : (b :: x :: r).Perm (x :: b :: r) := List.Perm.swap x b r
      exact (step1.trans step2).trans step3

theorem swap_perm {α : Type} [Inhabited α] :
    ∀ (l : List α) (i j : ℕ), i < l.length → j < l.length → (PRNG.swap l i j).Perm l
  | [], _, _, hi, _ => absurd hi (by simp)
  | a :: t, 0, 0, _, _ => by
      show ((((a :: t).set 0 ((a :: t).getD 0 default)).set 0 ((a :: t).getD 0 default))).Perm _
      exact List.Perm.refl _
  | a :: t, 0, Nat.succ m, _, hj => by
      have hm : m < t.length := by
        simp only [List.length_cons] at hj
        omega
      show (t.getD m default :: t.set m a).Perm (a :: t)
      rw [List.getD_eq_getElem t default hm]
      exact getElem_cons_set_perm t m hm a
  | a :: t, Nat.succ n, 0, hi, _ => by
      have hn : n < t.length := by
        simp only [List.length_cons] at hi
        omega
      show (t.getD n default :: t.set n a).Perm (a :: t)
      rw [List.getD_eq_getElem t default hn]
      exact getElem_cons_set_perm t n hn a
  | a :: t, Nat.succ n, Nat.succ m, hi, hj => by
      have hn : n < t.length := by
        simp only [List.length_cons] at hi
        omega
      have hm : m < t.length := by
        simp only [List.length_cons] at hj
        omega
      show (a :: (t.set n (t.getD m default)).set m (t.getD n default)).Perm (a :: t)
      exact List.Perm.cons a (swap_perm t n m hn hm)

theorem PRNG.shuffleGo_succ {α : Type} [Inhabited α] (s : ℕ) (arr : List α) (m : ℕ) :
    PRNG.shuffleGo s arr (Nat.succ m) =
    PRNG.shuffleGo ((PRNG.int s 0 ((m + 1 : ℕ) : ℤ)).1)
      (PRNG.swap arr (m + 1) ((PRNG.int s 0 ((m + 1 : ℕ) : ℤ)).2).toNat) m := by
  conv_rhs => unfold PRNG.shuffleGo
  conv_lhs => unfold PRNG.shuffleGo

theorem PRNG.shuffleGo_perm {α : Type} [Inhabited α] :
    ∀ (i : ℕ) (s : ℕ) (arr : List α), i < arr.length →
      (PRNG.shuffleGo s arr i).1.Perm arr
  | 0, _, arr, _ => List.Perm.refl arr
  | Nat.succ m, s, arr, h => by
      have hj : ((PRNG.int s 0 ((m + 1 : ℕ) : ℤ)).2).toNat ≤ m + 1 :=
        PRNG.int_le_toNat s (m + 1)
      have hjlt : ((PRNG.int s 0 ((m + 1 : ℕ) : ℤ)).2).toNat < arr.length := by omega
      have hperm := swap_perm arr (m + 1) ((PRNG.int s 0 ((m + 1 : ℕ) : ℤ)).2).toNat h hjlt
      have hlen := hperm.length_eq
      have ih := PRNG.shuffleGo_perm m ((PRNG.int s 0 ((m + 1 : ℕ) : ℤ)).1)
        (PRNG.swap arr (m + 1) ((PRNG.int s 0 ((m + 1 : ℕ) : ℤ)).2).toNat) (by omega)
      rw [PRNG.shuffleGo_succ]
      exact ih.trans hperm

/-- C10: shuffle returns the caller's array (the embedding returns the
array's final contents, which the source returns as the same object), its
contents after the call are a permutation of its contents before, and for
arrays of length 0 or 1 both the array and the register are returned
unchanged — the loop body never runs, so no next() draw is made. -/
theorem c10_shuffle {α : Type} [Inhabited α] (s : ℕ) (arr : List α) :
    (PRNG.shuffle s arr).1.Perm arr ∧
    (arr.length ≤ 1 → (PRNG.shuffle s arr).1 = arr ∧ (PRNG.shuffle s arr).2 = s) := by
  constructor
  · unfold PRNG.shuffle
    rcases Nat.eq_zero_or_pos arr.length with h | h
    · have h0 : arr.length - 1 = 0 := by omega
      rw [h0]
      exact List.Perm.refl arr
    · exact PRNG.shuffleGo_perm (arr.length - 1) s arr (by omega)
  · intro h1
    have h0 : arr.length - 1 = 0 := by omega
    unfold PRNG.shuffle
    rw [h0]
    exact ⟨rfl, rfl⟩

/-- Witness for c10_shuffle at `s = 0`, `arr = [42]`. -/
theorem c10_shuffle_witness :
    ([42] : List ℕ).length ≤ 1 ∧
    (PRNG.shuffle 0 ([42] : List ℕ)).1 = [42] ∧ (PRNG.shuffle 0 ([42] : List ℕ)).2 = 0 :=
  ⟨by decide, (c10_shuffle 0 [42]).2 (by decide)⟩

theorem DexModule.tickLoop_zero (E : ℚ → ℚ) (B : ℚ → ℚ → ℚ) (S : ℚ → ℚ)
    (d v dt : ℚ) (acc : ℕ × ℚ × ℚ × ℚ) :
    DexModule.tickLoop E B S d v dt 0 acc = acc := rfl

theorem DexModule.tickLoop_succ (E : ℚ → ℚ) (B : ℚ → ℚ → ℚ) (S : ℚ → ℚ)
    (d v dt : ℚ) (t : ℕ) (s : ℕ) (c h l : ℚ) :
    DexModule.tickLoop E B S d v dt (Nat.succ t) (s, c, h, l) =
    DexModule.tickLoop E B S d v dt t
      ((DexModule.tickStep E B S d v dt s c).1, (DexModule.tickStep E B S d v dt s c).2,
        max h (DexModule.tickStep E B S d v dt s c).2,
        min l (DexModule.tickStep E B S d v dt s c).2) := by
  conv_rhs => unfold DexModule.tickLoop
  conv_lhs => unfold DexModule.tickLoop

theorem DexModule.tickPrices_zero (E : ℚ → ℚ) (B : ℚ → ℚ → ℚ) (S : ℚ → ℚ)
    (d v dt : ℚ) (s : ℕ) (c : ℚ) :
    DexModule.tickPrices E B S d v dt 0 s c = [] := rfl

theorem DexModule.tickPrices_succ (E : ℚ → ℚ) (B : ℚ → ℚ → ℚ) (S : ℚ → ℚ)
    (d v dt : ℚ) (t : ℕ) (s : ℕ) (c : ℚ) :
    DexModule.tickPrices E B S d v dt (Nat.succ t) s c =
    (DexModule.tickStep E B S d v dt s c).2 ::
      DexModule.tickPrices E B S d v dt t (DexModule.tickStep E B S d v dt s c).1
        (DexModule.tickStep E B S d v dt s c).2 := by
  conv_rhs => unfold DexModule.tickPrices
  conv_lhs => unfold DexModule.tickPrices

theorem DexModule.candlesGo_zero (E : ℚ → ℚ) (B : ℚ → ℚ → ℚ) (S P : ℚ → ℚ)
    (d v : ℚ) (st iv : ℤ) (i : ℕ) (s : ℕ) (price : ℚ) :
    DexModule.candlesGo E B S P d v st iv 0 i s price = [] := rfl

theorem DexModule.candlesGo_succ (E : ℚ → ℚ) (B : ℚ → ℚ → ℚ) (S P : ℚ → ℚ)
    (d v : ℚ) (st iv : ℤ) (k i : ℕ) (s : ℕ) (price : ℚ) :
    DexModule.candlesGo E B S P d v st iv (Nat.succ k) i s price =
    (DexModule.makeCandle E B S P d v (st + (i : ℤ) * iv) s price).1 ::
      DexModule.candlesGo E B S P d v st iv k (i + 1)
        (DexModule.makeCandle E B S P d v (st + (i : ℤ) * iv) s price).2.1
        (DexModule.makeCandle E B S P d v (st + (i : ℤ) * iv) s price).2.2 := by
  conv_rhs => unfold DexModule.candlesGo
  conv_lhs => unfold DexModule.candlesGo

theorem DexModule.tickLoop_bounds (E : ℚ → ℚ) (B : ℚ → ℚ → ℚ) (S : ℚ → ℚ)
    (d v dt : ℚ) :
    ∀ (t : ℕ) (s : ℕ) (c h l : ℚ), l ≤ c → c ≤ h →
      (DexModule.tickLoop E B S d v dt t (s, c, h, l)).2.2.2 ≤ l ∧
      h ≤ (DexModule.tickLoop E B S d v dt t (s, c, h, l)).2.2.1 ∧
      (DexModule.tickLoop E B S d v dt t (s, c, h, l)).2.2.2 ≤
        (DexModule.tickLoop E B S d v dt t (s, c, h, l)).2.1 ∧
      (DexModule.tickLoop E B S d v dt t (s, c, h, l)).2.1 ≤
        (DexModule.tickLoop E B S d v dt t (s, c, h, l)).2.2.1 := by
  intro t
  induction t with
  | zero =>
      intro s c h l h1 h2
      rw [DexModule.tickLoop_zero]
      exact ⟨le_refl l, le_refl h, h1, h2⟩
  | succ t ih =>
      intro s c h l h1 h2
      rw [DexModule.tickLoop_succ]
      obtain ⟨a1, a2, a3, a4⟩ := ih (DexModule.tickStep E B S d v dt s c).1
        (DexModule.tickStep E B S d v dt s c).2
        (max h (DexModule.tickStep E B S d v dt s c).2)
        (min l (DexModule.tickStep E B S d v dt s c).2)
        (min_le_right _ _) (le_max_right _ _)
      exact ⟨le_trans a1 (min_le_left _ _), le_trans (le_max_left _ _) a2, a3, a4⟩

theorem DexModule.tickLoop_eq_fold (E : ℚ → ℚ) (B : ℚ → ℚ → ℚ) (S : ℚ → ℚ)
    (d v dt : ℚ) :
    ∀ (t : ℕ) (s : ℕ) (c h l : ℚ),
      (DexModule.tickLoop E B S d v dt t (s, c, h, l)).2.2.1 =
        List.foldl max h (DexModule.tickPrices E B S d v dt t s c) ∧
      (DexModule.tickLoop E B S d v dt t (s, c, h, l)).2.2.2 =
        List.foldl min l (DexModule.tickPrices E B S d v dt t s c) := by
  intro t
  induction t with
  | zero =>
      intro s c h l
      rw [DexModule.tickLoop_zero, DexModule.tickPrices_zero]
      exact ⟨rfl, rfl⟩
  | succ t ih =>
      intro s c h l
      rw [DexModule.tickLoop_succ, DexModule.tickPrices_succ, List.foldl_cons, List.foldl_cons]
      exact ⟨(ih _ _ _ _).1, (ih _ _ _ _).2⟩

theorem toFixedRound_mono (d : ℕ) {x y : ℚ} (h : x ≤ y) :
    toFixedRound d x ≤ toFixedRound d y := by
  unfold toFixedRound
  have hp : (0:ℚ) < 10 ^ d := by positivity
  rw [div_le_div_iff_of_pos_right hp]
  have h1 : x * 10 ^ d + 1 / 2 ≤ y * 10 ^ d + 1 / 2 := by
    have := mul_le_mul_of_nonneg_right h (le_of_lt hp)
    linarith
  exact_mod_cast Int.floor_le_floor h1

theorem DexModule.makeCandle_bounds (E : ℚ → ℚ) (B : ℚ → ℚ → ℚ) (S P : ℚ → ℚ)
    (d v : ℚ) (ts : ℤ) (s : ℕ) (price : ℚ) :
    (DexModule.makeCandle E B S P d v ts s price).1.low ≤
      (DexModule.makeCandle E B S P d v ts s price).1.open_ ∧
    (DexModule.makeCandle E B S P d v ts s price).1.open_ ≤
      (DexModule.makeCandle E B S P d v ts s price).1.high ∧
    (DexModule.makeCandle E B S P d v ts s price).1.low ≤
      (DexModule.makeCandle E B S P d v ts s price).1.close ∧
    (DexModule.makeCandle E B S P d v ts s price).1.close ≤
      (DexModule.makeCandle E B S P d v ts s price).1.high := by
  obtain ⟨a1, a2, a3, a4⟩ := DexModule.tickLoop_bounds E B S d v
    (1 / (((PRNG.int s 10 50).2).toNat : ℚ)) ((PRNG.int s 10 50).2).toNat
    (PRNG.int s 10 50).1 price price price (le_refl price) (le_refl price)
  exact ⟨toFixedRound_mono 8 a1, toFixedRound_mono 8 (le_trans (le_refl price) a2),
    toFixedRound_mono 8 a3, toFixedRound_mono 8 a4⟩

theorem DexModule.candlesGo_bounds (E : ℚ → ℚ) (B : ℚ → ℚ → ℚ) (S P : ℚ → ℚ)
    (d v : ℚ) (st iv : ℤ) :
    ∀ (fuel i : ℕ) (s : ℕ) (price : ℚ),
      ∀ c ∈ DexModule.candlesGo E B S P d v st iv fuel i s price,
        c.low ≤ c.open_ ∧ c.open_ ≤ c.high ∧ c.low ≤ c.close ∧ c.close ≤ c.high := by
  intro fuel
  induction fuel with
  | zero =>
      intro i s price c hc
      rw [DexModule.candlesGo_zero] at hc
      simp at hc
  | succ k ih =>
      intro i s price c hc
      rw [DexModule.candlesGo_succ] at hc
      rcases List.mem_cons.mp hc with h | h
      · subst h
        exact DexModule.makeCandle_bounds E B S P d v (st + (i : ℤ) * iv) s price
      · exact ih _ _ _ c h

/-- C8: every candle produced by the price-path sampler satisfies
`low ≤ open ≤ high` and `low ≤ close ≤ high` (stated for the candle at any
index, the out-of-range default trivially satisfying the bounds), and the
running extrema of the tick loop equal the max/min over the list of all
sub-step prices with the open included as the initial value.  The
transcendental kernels (`Math.exp`, Box-Muller, `Math.sqrt`, the power-law
`Math.pow` value) are universally quantified, so the invariant holds for
every possible value of the stochastic sub-steps. -/
theorem c8_candle_ordering (E : ℚ → ℚ) (B : ℚ → ℚ → ℚ) (S P : ℚ → ℚ)
    (count : ℕ) (startPrice v d : ℚ) (st iv : ℤ) (s : ℕ) (i : ℕ) :
    ((DexModule.candles E B S P count startPrice v d st iv s).getD i
        ⟨0, 0, 0, 0, 0, 0⟩).low ≤
      ((DexModule.candles E B S P count startPrice v d st iv s).getD i
        ⟨0, 0, 0, 0, 0, 0⟩).open_ ∧
    ((DexModule.candles E B S P count startPrice v d st iv s).getD i
        ⟨0, 0, 0, 0, 0, 0⟩).open_ ≤
      ((DexModule.candles E B S P count startPrice v d st iv s).getD i
        ⟨0, 0, 0, 0, 0, 0⟩).high ∧
    ((DexModule.candles E B S P count startPrice v d st iv s).getD i
        ⟨0, 0, 0, 0, 0, 0⟩).low ≤
      ((DexModule.candles E B S P count startPrice v d st iv s).getD i
        ⟨0, 0, 0, 0, 0, 0⟩).close ∧
    ((DexModule.candles E B S P count startPrice v d st iv s).getD i
        ⟨0, 0, 0, 0, 0, 0⟩).close ≤
      ((DexModule.candles E B S P count startPrice v d st iv s).getD i
        ⟨0, 0, 0, 0, 0, 0⟩).high ∧
    (∀ (dt : ℚ) (t : ℕ) (s2 : ℕ) (op : ℚ),
      (DexModule.tickLoop E B S d v dt t (s2, op, op, op)).2.2.1 =
        List.foldl max op (DexModule.tickPrices E B S d v dt t s2 op) ∧
      (DexModule.tickLoop E B S d v dt t (s2, op, op, op)).2.2.2 =
        List.foldl min op (DexModule.tickPrices E B S d v dt t s2 op)) := by
  have hmain : ((DexModule.candles E B S P count startPrice v d st iv s).getD i
        ⟨0, 0, 0, 0, 0, 0⟩).low ≤
      ((DexModule.candles E B S P count startPrice v d st iv s).getD i
        ⟨0, 0, 0, 0, 0, 0⟩).open_ ∧
      ((DexModule.candles E B S P count startPrice v d st iv s).getD i
        ⟨0, 0, 0, 0, 0, 0⟩).open_ ≤
      ((DexModule.candles E B S P count startPrice v d st iv s).getD i
        ⟨0, 0, 0, 0, 0, 0⟩).high ∧
      ((DexModule.candles E B S P count startPrice v d st iv s).getD i
        ⟨0, 0, 0, 0, 0, 0⟩).low ≤
      ((DexModule.candles E B S P count startPrice v d st iv s).getD i
        ⟨0, 0, 0, 0, 0, 0⟩).close ∧
      ((DexModule.candles E B S P count startPrice v d st iv s).getD i
        ⟨0, 0, 0, 0, 0, 0⟩).close ≤
      ((DexModule.candles E B S P count startPrice v d st iv s).getD i
        ⟨0, 0, 0, 0, 0, 0⟩).high := by
    by_cases hi : i < (DexModule.candles E B S P count startPrice v d st iv s).length
    · rw [List.getD_eq_getElem _ _ hi]
      exact DexModule.candlesGo_bounds E B S P d v st iv count 0 s startPrice _
        (List.getElem_mem hi)
    · rw [List.getD_eq_default _ _ (Nat.le_of_not_lt hi)]
      exact ⟨le_refl 0, le_refl 0, le_refl 0, le_refl 0⟩
  exact ⟨hmain.1, hmain.2.1, hmain.2.2.1, hmain.2.2.2,
    fun dt t s2 op => DexModule.tickLoop_eq_fold E B S d v dt t s2 op op op⟩
